import Mathlib

/-!
Verification of the DNS-record content script of `chrome-cloudflare-helper`.

The source is a TypeScript content script that augments the Cloudflare DNS
dashboard table.  Strings are modelled as `List Char` (`Str`), DOM query
results as `Option`-valued record fields, and every function below is a
direct translation of the correspondingly named function of the source.
-/

abbrev Str := List Char

/-- Character class `[a-f0-9]` of `ID_REGEX` and `URL_REGEX`. -/
def isHexLower (c : Char) : Bool :=
  (decide ('a' ≤ c) && decide (c ≤ 'f')) || (decide ('0' ≤ c) && decide (c ≤ '9'))

/-- The literal tail of `ID_REGEX = /^([a-f0-9]{32})-dns-edit-row$/`. -/
def ID_SUFFIX : Str := "-dns-edit-row".data

/-- `aria-controls.match(ID_REGEX)`: the anchored regex matches exactly the
strings `h ++ "-dns-edit-row"` with `h` thirty-two lowercase hex characters,
and captures `h`. -/
def matchIdRegex (s : Str) : Option Str :=
  if s.length = 32 + ID_SUFFIX.length ∧ (s.take 32).all isHexLower ∧ s.drop 32 = ID_SUFFIX
  then some (s.take 32) else none

/-- `extractRecordId`: read the `aria-controls` attribute of the edit button
(`none` when the attribute is absent) and match it against `ID_REGEX`,
returning the captured 32-hex-character group. -/
def extractRecordId (ariaControls : Option Str) : Option Str :=
  match ariaControls with
  | none => none
  | some a => matchIdRegex a

/-- C1: for every attribute value that is exactly 32 lowercase hexadecimal
characters followed by the literal suffix `-dns-edit-row`, `extractRecordId`
returns those 32 hex characters unchanged; a missing attribute or a value of
any other shape yields `none`. -/
theorem claim_C1 :
    extractRecordId none = none
    ∧ (∀ h : Str, h.length = 32 → h.all isHexLower = true →
        extractRecordId (some (h ++ ID_SUFFIX)) = some h)
    ∧ (∀ s : Str, (¬ ∃ h : Str, h.length = 32 ∧ h.all isHexLower = true ∧ s = h ++ ID_SUFFIX) →
        extractRecordId (some s) = none) := by
  refine ⟨rfl, ?_, ?_⟩
  · intro h hl hhex
    have h1 : (h ++ ID_SUFFIX).take 32 = h := by
      rw [← hl]; exact List.take_left h ID_SUFFIX
    have h2 : (h ++ ID_SUFFIX).drop 32 = ID_SUFFIX := by
      rw [← hl]; exact List.drop_left h ID_SUFFIX
    simp [extractRecordId, matchIdRegex, h1, h2, List.length_append, hl]
    simpa using hhex
  · intro s hne
    simp only [extractRecordId, matchIdRegex]
    by_cases hc : s.length = 32 + ID_SUFFIX.length ∧ (s.take 32).all isHexLower ∧
        s.drop 32 = ID_SUFFIX
    · exfalso
      apply hne
      refine ⟨s.take 32, ?_, hc.2.1, ?_⟩
      · rw [List.length_take, hc.1]
        have hsuf : ID_SUFFIX.length = 13 := by decide
        omega
      · rw [← hc.2.2]
        exact (List.take_append_drop 32 s).symm
    · rw [if_neg hc]

/-- Witness for C1 at a concrete valid identifier and at the empty attribute value. -/
theorem claim_C1_witness :
    extractRecordId (some ("aaaaaaaaaaaaaaaaaaaaaaaaaaaaaaaa".data ++ ID_SUFFIX))
        = some ("aaaaaaaaaaaaaaaaaaaaaaaaaaaaaaaa".data)
    ∧ extractRecordId (some []) = none :=
  ⟨claim_C1.2.1 _ (by decide) (by decide),
   claim_C1.2.2 [] (by
    rintro ⟨h, hl, -, he⟩
    have hlen := congrArg List.length he
    have hsuf : ID_SUFFIX.length = 13 := by decide
    simp only [List.length_append, List.length_nil, hl, hsuf] at hlen
    omega)⟩

/-- Substring test, the semantics of JavaScript `String.prototype.includes`:
`containsSub pat s` is true when `pat` occurs contiguously inside `s`. -/
def containsSub (pat : Str) : Str → Bool
  | [] => pat.isEmpty
  | c :: rest => pat.isPrefixOf (c :: rest) || containsSub pat rest

theorem containsSub_iff_infix (pat s : Str) : containsSub pat s = true ↔ pat <:+: s := by
  induction s with
  | nil =>
    simp only [containsSub, List.isEmpty_iff, List.infix_nil]
  | cons c rest ih =>
    simp only [containsSub, Bool.or_eq_true, List.isPrefixOf_iff_prefix, ih,
      List.infix_cons_iff]

/-- One global pass of JavaScript `String.prototype.replace` with a literal
pattern: scan left to right, splice `repl` in place of each non-overlapping
occurrence of `pat`, and never re-scan the spliced text within the same pass.
The fuel argument (instantiated with the length of the subject string, an
upper bound on the number of scanning steps) keeps the recursion structural. -/
def replaceAllFuel (pat repl : Str) : Nat → Str → Str
  | _, [] => []
  | 0, s => s
  | fuel + 1, c :: rest =>
    if pat.isPrefixOf (c :: rest)
    then repl ++ replaceAllFuel pat repl fuel ((c :: rest).drop pat.length)
    else c :: replaceAllFuel pat repl fuel rest

/-- `template.replace(/pat/g, repl)` for a literal pattern `pat`. -/
def replaceAll (pat repl s : Str) : Str := replaceAllFuel pat repl s.length s

theorem replaceAllFuel_of_not_contains (pat repl : Str) :
    ∀ (fuel : Nat) (s : Str), containsSub pat s = false →
      replaceAllFuel pat repl fuel s = s := by
  intro fuel
  induction fuel with
  | zero =>
    intro s _
    cases s <;> simp [replaceAllFuel]
  | succ fuel ih =>
    intro s hs
    cases s with
    | nil => simp [replaceAllFuel]
    | cons c rest =>
      simp only [containsSub, Bool.or_eq_false_iff] at hs
      simp [replaceAllFuel, hs.1, ih rest hs.2]

theorem replaceAll_of_not_contains (pat repl s : Str) (h : containsSub pat s = false) :
    replaceAll pat repl s = s :=
  replaceAllFuel_of_not_contains pat repl s.length s h

/-- Placeholder tokens of the renderer (`\x7b` and `\x7d` are `{` and `}`). -/
def tokRecordId : Str := "\x7b\x7brecordId\x7d\x7d".data

def tokZoneName : Str := "\x7b\x7bzoneName\x7d\x7d".data

def tokType : Str := "\x7b\x7btype\x7d\x7d".data

def tokName : Str := "\x7b\x7bname\x7d\x7d".data

def tokContent : Str := "\x7b\x7bcontent\x7d\x7d".data

def tokTtl : Str := "\x7b\x7bttl\x7d\x7d".data

def tokTtlSeconds : Str := "\x7b\x7bttlSeconds\x7d\x7d".data

def tokProxied : Str := "\x7b\x7bproxied\x7d\x7d".data

def tokResourceName : Str := "\x7b\x7bresourceName\x7d\x7d".data

structure TemplateVariables where
  recordId : Str
  zoneName : Str
  type : Str
  name : Str
  content : Str
  ttl : Str
  ttlSeconds : Nat
  proxied : Bool
  resourceName : Str

/-- `String(vars.ttlSeconds)`: decimal rendering of the number. -/
def natToStr (n : Nat) : Str := (Nat.repr n).data

/-- `String(vars.proxied)`: booleans render as `true` / `false`. -/
def boolToStr (b : Bool) : Str := if b then "true".data else "false".data

/-- `interpolateTemplate`: nine chained global replacements, in source order. -/
def interpolateTemplate (template : Str) (vars : TemplateVariables) : Str :=
  let s1 := replaceAll tokRecordId vars.recordId template
  let s2 := replaceAll tokZoneName vars.zoneName s1
  let s3 := replaceAll tokType vars.type s2
  let s4 := replaceAll tokName vars.name s3
  let s5 := replaceAll tokContent vars.content s4
  let s6 := replaceAll tokTtl vars.ttl s5
  let s7 := replaceAll tokTtlSeconds (natToStr vars.ttlSeconds) s6
  let s8 := replaceAll tokProxied (boolToStr vars.proxied) s7
  replaceAll tokResourceName vars.resourceName s8

/-- Variable assignment exhibiting the re-scan behaviour of the chain: the
`content` value is the literal text `{{name}}`. -/
def varsC2 : TemplateVariables :=
  { recordId := [], zoneName := [], type := [], name := "N".data,
    content := tokName, ttl := [], ttlSeconds := 1, proxied := false, resourceName := [] }

/-- C2 counterexample: with `content = "\x7b\x7bname\x7d\x7d"` and template
`"\x7b\x7bcontent\x7d\x7d"`, the first render outputs the literal text
`\x7b\x7bname\x7d\x7d`, and rendering that result again with the same
variables substitutes it (yielding `"N"`), so rendering is not idempotent on
the output and the literal `\x7b\x7bname\x7d\x7d` is not retained. -/
theorem claim_C2_counterexample :
    interpolateTemplate tokContent varsC2 = tokName
    ∧ interpolateTemplate (interpolateTemplate tokContent varsC2) varsC2 = "N".data
    ∧ interpolateTemplate (interpolateTemplate tokContent varsC2) varsC2
        ≠ interpolateTemplate tokContent varsC2 :=
  ⟨by decide, by decide, by decide⟩

/-- C2 (amended): substitution does not re-scan replacement text within one
pass, but later passes of the chain do scan text inserted by earlier passes,
so rendering is not idempotent in general; whenever the rendered output
contains no occurrence of any of the nine placeholder tokens, re-rendering
it with the same variables returns it unchanged. -/
theorem claim_C2_amended :
    ∀ (t : Str) (v : TemplateVariables),
      (∀ tok ∈ [tokRecordId, tokZoneName, tokType, tokName, tokContent, tokTtl,
          tokTtlSeconds, tokProxied, tokResourceName],
        containsSub tok (interpolateTemplate t v) = false) →
      interpolateTemplate (interpolateTemplate t v) v = interpolateTemplate t v := by
  intro t v h
  have h1 := h tokRecordId (by simp)
  have h2 := h tokZoneName (by simp)
  have h3 := h tokType (by simp)
  have h4 := h tokName (by simp)
  have h5 := h tokContent (by simp)
  have h6 := h tokTtl (by simp)
  have h7 := h tokTtlSeconds (by simp)
  have h8 := h tokProxied (by simp)
  have h9 := h tokResourceName (by simp)
  conv_lhs => rw [interpolateTemplate]
  rw [replaceAll_of_not_contains _ _ _ h1, replaceAll_of_not_contains _ _ _ h2,
    replaceAll_of_not_contains _ _ _ h3, replaceAll_of_not_contains _ _ _ h4,
    replaceAll_of_not_contains _ _ _ h5, replaceAll_of_not_contains _ _ _ h6,
    replaceAll_of_not_contains _ _ _ h7, replaceAll_of_not_contains _ _ _ h8,
    replaceAll_of_not_contains _ _ _ h9]

/-- Witness for C2 (amended) at a token-free template. -/
theorem claim_C2_witness :
    (∀ tok ∈ [tokRecordId, tokZoneName, tokType, tokName, tokContent, tokTtl,
        tokTtlSeconds, tokProxied, tokResourceName],
      containsSub tok (interpolateTemplate ("hello".data) varsC2) = false)
    ∧ interpolateTemplate (interpolateTemplate ("hello".data) varsC2) varsC2
        = interpolateTemplate ("hello".data) varsC2 :=
  ⟨by decide, claim_C2_amended ("hello".data) varsC2 (by decide)⟩

inductive TtlUnit
  | min
  | hour
  | day
  | sec
deriving DecidableEq

/-- ASCII part of the character class `\s` used by the TTL regex. -/
def jsWhitespace (c : Char) : Bool :=
  c = ' ' || c = '\t' || c = '\n' || c = '\r' || c = '\x0b' || c = '\x0c'

/-- `toLowerCase()` on the ASCII strings of interest. -/
def toLowerStr (s : Str) : Str := s.map Char.toLower

/-- Group 2 of `/(\d+)\s*(min|hour|day|sec)?/i` read right after the digit
run: skip whitespace, then try the four unit words case-insensitively. -/
def readUnit (l : Str) : Option TtlUnit :=
  let t := toLowerStr (l.dropWhile jsWhitespace)
  if ("min".data).isPrefixOf t then some TtlUnit.min
  else if ("hour".data).isPrefixOf t then some TtlUnit.hour
  else if ("day".data).isPrefixOf t then some TtlUnit.day
  else if ("sec".data).isPrefixOf t then some TtlUnit.sec
  else none

def digitVal (c : Char) : Nat := c.toNat - '0'.toNat

/-- `parseInt(match[1], 10)` on the captured digit run. -/
def digitsToNat (l : Str) : Nat := l.foldl (fun acc c => acc * 10 + digitVal c) 0

/-- Unanchored search of `/(\d+)\s*(min|hour|day|sec)?/i`: the match starts at
the first digit of the string; group 1 is the maximal digit run from there
and group 2 is read from the remainder. -/
def ttlScan : Str → Option (Nat × Option TtlUnit)
  | [] => none
  | c :: rest =>
    if c.isDigit
    then some (digitsToNat ((c :: rest).takeWhile Char.isDigit),
               readUnit ((c :: rest).dropWhile Char.isDigit))
    else ttlScan rest

/-- `switch` on `(match[2] || 'sec')`. -/
def unitFactor : Option TtlUnit → Nat
  | some TtlUnit.min => 60
  | some TtlUnit.hour => 3600
  | some TtlUnit.day => 86400
  | _ => 1

/-- `parseTtl`: `"auto"` (case-insensitive) gives 1, a failed regex match
gives 1, otherwise the matched integer times the unit factor. -/
def parseTtl (ttlStr : Str) : Nat :=
  if toLowerStr ttlStr = "auto".data then 1
  else
    match ttlScan ttlStr with
    | none => 1
    | some (v, u) => v * unitFactor u

theorem ttlScan_of_no_digit :
    ∀ s : Str, (∀ c ∈ s, c.isDigit = false) → ttlScan s = none := by
  intro s
  induction s with
  | nil => intro _; rfl
  | cons c rest ih =>
    intro h
    simp [ttlScan, h c (by simp), ih fun x hx => h x (by simp [hx])]

theorem takeWhile_append_run (p : Char → Bool) :
    ∀ (run post : Str), (∀ c ∈ run, p c = true) → (∀ c, post.head? = some c → p c = false) →
      (run ++ post).takeWhile p = run ∧ (run ++ post).dropWhile p = post := by
  intro run
  induction run with
  | nil =>
    intro post _ hpost
    cases post with
    | nil => simp
    | cons d ds => simp [List.takeWhile_cons, List.dropWhile_cons, hpost d rfl]
  | cons c cs ih =>
    intro post hrun hpost
    have hc : p c = true := hrun c (by simp)
    obtain ⟨h1, h2⟩ := ih post (fun x hx => hrun x (by simp [hx])) hpost
    simp [List.takeWhile_cons, List.dropWhile_cons, hc, h1, h2]

theorem ttlScan_decomp :
    ∀ (pre run post : Str), (∀ c ∈ pre, c.isDigit = false) → run ≠ [] →
      (∀ c ∈ run, c.isDigit = true) → (∀ c, post.head? = some c → c.isDigit = false) →
      ttlScan (pre ++ run ++ post) = some (digitsToNat run, readUnit post) := by
  intro pre
  induction pre with
  | nil =>
    intro run post _ hne hrun hpost
    cases run with
    | nil => exact absurd rfl hne
    | cons c cs =>
      have hc := hrun c (by simp)
      obtain ⟨h1, h2⟩ := takeWhile_append_run Char.isDigit (c :: cs) post hrun hpost
      simp only [List.nil_append, List.cons_append, ttlScan, List.append_eq] at *
      simp [ttlScan, hc, h1, h2]
  | cons c cs ih =>
    intro run post hpre hne hrun hpost
    have hc : c.isDigit = false := hpre c (by simp)
    simp only [List.cons_append, ttlScan, hc, Bool.false_eq_true, if_false]
    exact ih run post (fun x hx => hpre x (by simp [hx])) hne hrun hpost

/-- C3 counterexample: the regex of `parseTtl` is not anchored, so the
integer need not be leading: on `"a5"` (no leading integer) the claim gives
1 but the code finds the digit `5` anywhere in the string and returns 5. -/
theorem claim_C3_counterexample :
    parseTtl ("a5".data) = 5 ∧ parseTtl ("a5".data) ≠ 1 :=
  ⟨by decide, by decide⟩

/-- C3 (amended): `parseTtl` returns 1 on case-insensitive `"auto"`; returns
1 when the string contains no digit; and otherwise locates the first digit
run anywhere in the string (not necessarily leading) and returns its value
times the factor of the optional unit word following it (60 / 3600 / 86400
for min / hour / day, else 1).  The six example evaluations of the claim all
hold. -/
theorem claim_C3 :
    (∀ s : Str, toLowerStr s = "auto".data → parseTtl s = 1)
    ∧ (∀ s : Str, (∀ c ∈ s, c.isDigit = false) → parseTtl s = 1)
    ∧ (∀ pre run post : Str, (∀ c ∈ pre, c.isDigit = false) → run ≠ [] →
        (∀ c ∈ run, c.isDigit = true) → (∀ c, post.head? = some c → c.isDigit = false) →
        toLowerStr (pre ++ run ++ post) ≠ "auto".data →
        parseTtl (pre ++ run ++ post) = digitsToNat run * unitFactor (readUnit post))
    ∧ parseTtl ("Auto".data) = 1 ∧ parseTtl ("5 min".data) = 300
    ∧ parseTtl ("2 hours".data) = 7200 ∧ parseTtl ("1 day".data) = 86400
    ∧ parseTtl ("45".data) = 45 ∧ parseTtl ("garbage".data) = 1 := by
  refine ⟨?_, ?_, ?_, by decide, by decide, by decide, by decide, by decide, by decide⟩
  · intro s hs
    simp [parseTtl, hs]
  · intro s hs
    by_cases hauto : toLowerStr s = "auto".data
    · simp [parseTtl, hauto]
    · simp [parseTtl, hauto, ttlScan_of_no_digit s hs]
  · intro pre run post hpre hne hrun hpost hauto
    have hd := ttlScan_decomp pre run post hpre hne hrun hpost
    unfold parseTtl
    rw [if_neg hauto, hd]

/-- Witness for C3 (amended) at `"AUTO"`, `"xyz"` and `"a5 min"`. -/
theorem claim_C3_witness :
    parseTtl ("AUTO".data) = 1
    ∧ parseTtl ("xyz".data) = 1
    ∧ parseTtl ("a".data ++ "5".data ++ " min".data)
        = digitsToNat ("5".data) * unitFactor (readUnit (" min".data)) :=
  ⟨claim_C3.1 _ (by decide), claim_C3.2.1 _ (by decide),
   claim_C3.2.2.1 ("a".data) ("5".data) (" min".data) (by decide) (by decide) (by decide)
    (by
      intro c hc
      have h : (' ' : Char) = c := by
        injection (show some ' ' = some c from hc)
      rw [← h]
      decide)
    (by decide)⟩

/-- C4 counterexample: `parseTtl "0"` returns 0, which is not ≥ 1. -/
theorem claim_C4_counterexample :
    parseTtl ("0".data) = 0 ∧ ¬ (1 ≤ parseTtl ("0".data)) :=
  ⟨by decide, by decide⟩

theorem unitFactor_pos (u : Option TtlUnit) : 0 < unitFactor u := by
  rcases u with _ | u
  · simp [unitFactor]
  · cases u <;> simp [unitFactor]

theorem ttlScan_some_has_digit :
    ∀ (s : Str) (v : Nat) (u : Option TtlUnit), ttlScan s = some (v, u) →
      ∃ c ∈ s, c.isDigit = true := by
  intro s
  induction s with
  | nil =>
    intro v u h
    simp [ttlScan] at h
  | cons c rest ih =>
    intro v u h
    by_cases hc : c.isDigit = true
    · exact ⟨c, by simp, hc⟩
    · simp only [ttlScan] at h
      rw [if_neg hc] at h
      obtain ⟨d, hd, hdig⟩ := ih v u h
      exact ⟨d, by simp [hd], hdig⟩

theorem toLower_of_isDigit (c : Char) (h : c.isDigit = true) : c.toLower = c := by
  simp only [Char.isDigit, Bool.and_eq_true, decide_eq_true_eq] at h
  obtain ⟨h1, h2⟩ := h
  have h2n : c.toNat ≤ 57 := h2
  unfold Char.toLower
  rw [if_neg]
  rintro ⟨ha, -⟩
  omega

theorem auto_has_no_digit (s : Str) (h : toLowerStr s = "auto".data) :
    ∀ c ∈ s, c.isDigit = false := by
  intro c hc
  by_cases hd : c.isDigit = true
  · exfalso
    have hmem : c.toLower ∈ toLowerStr s := List.mem_map_of_mem Char.toLower hc
    rw [toLower_of_isDigit c hd, h] at hmem
    have hcases : c = 'a' ∨ c = 'u' ∨ c = 't' ∨ c = 'o' := by simpa using hmem
    rcases hcases with rfl | rfl | rfl | rfl <;> exact absurd hd (by decide)
  · simpa using hd

theorem parseTtl_zero_iff (s : Str) :
    parseTtl s = 0 ↔ ∃ u, ttlScan s = some (0, u) := by
  constructor
  · intro h
    by_cases hauto : toLowerStr s = "auto".data
    · simp [parseTtl, hauto] at h
    · rcases hscan : ttlScan s with _ | ⟨v, u⟩
      · simp [parseTtl, hauto, hscan] at h
      · simp only [parseTtl, hauto, if_false, hscan] at h
        have hv : v = 0 := by
          rcases Nat.mul_eq_zero.mp h with hv | hf
          · exact hv
          · have := unitFactor_pos u
            omega
        exact ⟨u, by rw [hv]⟩
  · rintro ⟨u, hu⟩
    have hauto : toLowerStr s ≠ "auto".data := by
      intro hcontra
      obtain ⟨c, hc, hcd⟩ := ttlScan_some_has_digit s 0 u hu
      have hfalse := auto_has_no_digit s hcontra c hc
      rw [hcd] at hfalse
      exact absurd hfalse (by decide)
    simp [parseTtl, hauto, hu]

/-- C4 (amended): `parseTtl` returns 0 exactly when the first digit run
found anywhere in the string has numeric value 0 (as in `"0"` or `"0 min"`),
and for every other input returns at least 1. -/
theorem claim_C4 :
    ∀ s : Str, (parseTtl s = 0 ↔ ∃ u, ttlScan s = some (0, u))
      ∧ ((¬ ∃ u, ttlScan s = some (0, u)) → 1 ≤ parseTtl s)
      ∧ parseTtl ("0 min".data) = 0 := by
  intro s
  refine ⟨parseTtl_zero_iff s, ?_, by decide⟩
  intro hne
  have h0 : parseTtl s ≠ 0 := fun h => hne ((parseTtl_zero_iff s).mp h)
  omega

/-- Witness for C4 (amended) at `"5"`, whose digit run is non-zero. -/
theorem claim_C4_witness :
    (¬ ∃ u, ttlScan ("5".data) = some (0, u)) ∧ 1 ≤ parseTtl ("5".data) :=
  ⟨by
    rintro ⟨u, hu⟩
    rcases u with _ | u
    · exact absurd hu (by decide)
    · cases u <;> exact absurd hu (by decide),
   (claim_C4 ("5".data)).2.1 (by
    rintro ⟨u, hu⟩
    rcases u with _ | u
    · exact absurd hu (by decide)
    · cases u <;> exact absurd hu (by decide))⟩

/-- Character class `[a-zA-Z0-9_]` of the slug regex. -/
def isWordChar (c : Char) : Bool :=
  (decide ('a' ≤ c) && decide (c ≤ 'z')) || (decide ('A' ≤ c) && decide (c ≤ 'Z')) ||
  (decide ('0' ≤ c) && decide (c ≤ '9')) || c = '_'

/-- Boolean test for the underscore character. -/
def isUnd (c : Char) : Bool := c = '_'

/-- `replace(/_+/g, '_')`: each maximal run of underscores becomes a single
underscore.  The flag records whether the previous character emitted was part
of an underscore run. -/
def collapseUnd : Bool → Str → Str
  | _, [] => []
  | prev, c :: rest =>
    if c = '_' then
      if prev then collapseUnd true rest else '_' :: collapseUnd true rest
    else c :: collapseUnd false rest

/-- `/^[0-9]/.test(resourceName)`. -/
def startsWithDigit (l : Str) : Bool :=
  match l.head? with
  | some c => c.isDigit
  | none => false

/-- `replace(/^_|_$/g, '')`: the regex removes one leading underscore and one
trailing underscore (at most one of each, which after collapsing is a full
trim). -/
def stripEdgeUnd (l : Str) : Str :=
  let l1 := if l.head? = some '_' then l.tail else l
  if l1.getLast? = some '_' then l1.dropLast else l1

/-- `toTerraformResourceName` up to (excluding) the final `|| 'dns_record'`
fallback. -/
def toTerraformResourceNamePre (name type : Str) : Str :=
  let s1 := name.map fun c => if c = '.' then '_' else c
  let s2 := s1.map fun c => if isWordChar c then c else '_'
  let s3 := collapseUnd false s2
  let s4 := stripEdgeUnd s3
  let r := toLowerStr type ++ '_' :: s4
  if startsWithDigit r then 'r' :: '_' :: r else r

/-- `toTerraformResourceName`, including the `|| 'dns_record'` fallback. -/
def toTerraformResourceName (name type : Str) : Str :=
  let r := toTerraformResourceNamePre name type
  if r = [] then "dns_record".data else r

/-- Trim of all leading and all trailing underscores, following the words of
the spec ("trimming leading/trailing underscores"). -/
def trimUnd (l : Str) : Str :=
  ((l.dropWhile isUnd).reverse.dropWhile isUnd).reverse

/-- Resource-name derivation written from the words of the claim: slug the
name, collapse, trim all edge underscores, prefix the lower-cased type and an
underscore, and prepend `r_` when the result starts with a digit. -/
def resourceNameSpec (name type : Str) : Str :=
  let slug := trimUnd (collapseUnd false
    ((name.map fun c => if c = '.' then '_' else c).map fun c => if isWordChar c then c else '_'))
  let r := toLowerStr type ++ '_' :: slug
  if startsWithDigit r then 'r' :: '_' :: r else r

theorem collapseUnd_head (l : Str) : (collapseUnd true l).head? ≠ some '_' := by
  induction l with
  | nil => simp [collapseUnd]
  | cons c rest ih =>
    by_cases hc : c = '_'
    · simpa [collapseUnd, hc] using ih
    · simp [collapseUnd, hc]

theorem collapseUnd_noAdj (b : Bool) (l : Str) :
    List.Chain' (fun a b => ¬(a = '_' ∧ b = '_')) (collapseUnd b l) := by
  induction l generalizing b with
  | nil => simp [collapseUnd]
  | cons c rest ih =>
    by_cases hc : c = '_'
    · cases b with
      | true => simpa [collapseUnd, hc] using ih true
      | false =>
        subst hc
        have hstep : collapseUnd false ('_' :: rest) = '_' :: collapseUnd true rest := by
          simp [collapseUnd]
        rw [hstep, List.chain'_cons']
        refine ⟨?_, ih true⟩
        rintro y hy ⟨-, rfl⟩
        exact collapseUnd_head rest (Option.mem_def.mp hy)
    · simp only [collapseUnd, if_neg hc]
      rw [List.chain'_cons']
      refine ⟨?_, ih false⟩
      rintro y hy ⟨hc', -⟩
      exact hc hc'

theorem dropWhile_isUnd_of_noAdj (l : Str)
    (h : List.Chain' (fun a b => ¬(a = '_' ∧ b = '_')) l) :
    l.dropWhile isUnd = if l.head? = some '_' then l.tail else l := by
  cases l with
  | nil => simp
  | cons c rest =>
    by_cases hc : c = '_'
    · subst hc
      cases rest with
      | nil => simp [List.dropWhile_cons, isUnd]
      | cons d ds =>
        have hd : (d = '_') = False := by
          rcases List.chain'_cons.mp h with ⟨hR, -⟩
          simp only [eq_iff_iff, iff_false]
          intro hd'
          exact hR ⟨rfl, hd'⟩
        simp [List.dropWhile_cons, isUnd, hd]
    · simp [List.dropWhile_cons, isUnd, hc]

theorem chain'_noAdj_reverse (l : Str)
    (h : List.Chain' (fun a b => ¬(a = '_' ∧ b = '_')) l) :
    List.Chain' (fun a b => ¬(a = '_' ∧ b = '_')) l.reverse := by
  rw [List.chain'_reverse]
  exact h.imp fun a b hab => fun hba => hab ⟨hba.2, hba.1⟩

theorem stripEdgeUnd_eq_trimUnd (l : Str)
    (h : List.Chain' (fun a b => ¬(a = '_' ∧ b = '_')) l) :
    stripEdgeUnd l = trimUnd l := by
  have h1 := dropWhile_isUnd_of_noAdj l h
  have hl1 : List.Chain' (fun a b => ¬(a = '_' ∧ b = '_')) (l.dropWhile isUnd) := by
    rw [h1]
    split
    · exact List.Chain'.tail h
    · exact h
  have h2 := dropWhile_isUnd_of_noAdj (l.dropWhile isUnd).reverse (chain'_noAdj_reverse _ hl1)
  unfold stripEdgeUnd trimUnd
  rw [← h1, h2, List.head?_reverse]
  by_cases hlast : (l.dropWhile isUnd).getLast? = some '_'
  · rw [if_pos hlast, if_pos hlast, List.tail_reverse_eq_reverse_dropLast, List.reverse_reverse]
  · rw [if_neg hlast, if_neg hlast, List.reverse_reverse]

theorem resourceNamePre_ne_nil (name type : Str) : toTerraformResourceNamePre name type ≠ [] := by
  simp only [toTerraformResourceNamePre]
  split
  · exact List.cons_ne_nil _ _
  · intro hcontra
    have := congrArg List.length hcontra
    simp only [List.length_append, List.length_cons, List.length_nil] at this
    omega

/-- C5: `toTerraformResourceName` agrees with the claim's pipeline (dots to
underscores, non-word characters to underscores, collapse runs, trim edge
underscores, prefix the lower-cased type, `r_` before a leading digit), and
the two example evaluations hold. -/
theorem claim_C5 :
    (∀ name type : Str, toTerraformResourceName name type = resourceNameSpec name type)
    ∧ toTerraformResourceName ("www.example.com".data) ("A".data) = "a_www_example_com".data
    ∧ toTerraformResourceName ("*.example.com".data) ("CNAME".data) = "cname_example_com".data := by
  refine ⟨?_, by decide, by decide⟩
  intro name type
  have hpre : toTerraformResourceNamePre name type = resourceNameSpec name type := by
    simp only [toTerraformResourceNamePre, resourceNameSpec]
    rw [stripEdgeUnd_eq_trimUnd _ (collapseUnd_noAdj false _)]
  simp only [toTerraformResourceName]
  rw [if_neg (resourceNamePre_ne_nil name type), hpre]

/-- C6: the string computed before the `|| 'dns_record'` fallback always
contains at least the underscore separating the type prefix from the slug,
so it is non-empty and the fallback branch is unreachable. -/
theorem claim_C6 :
    ∀ name type : Str, toTerraformResourceNamePre name type ≠ []
      ∧ toTerraformResourceName name type = toTerraformResourceNamePre name type := by
  intro name type
  refine ⟨resourceNamePre_ne_nil name type, ?_⟩
  simp only [toTerraformResourceName]
  rw [if_neg (resourceNamePre_ne_nil name type)]

/-- Leading literal of `URL_REGEX`. -/
def URL_HOST : Str := "dash.cloudflare.com/".data

/-- Trailing literal of `URL_REGEX`. -/
def URL_TAIL : Str := "/dns/records".data

/-- Attempted match of `URL_REGEX =
`/dash\.cloudflare\.com\/[a-f0-9]{32}\/([^\/]+)\/dns\/records/` anchored at
the start of `l`: the host literal, 32 lowercase hex characters, a slash, a
non-empty run of non-slash characters (the captured zone segment) and the
tail literal. -/
def matchUrlAt (l : Str) : Option Str :=
  if URL_HOST.isPrefixOf l then
    let r1 := l.drop URL_HOST.length
    if (r1.take 32).length = 32 ∧ (r1.take 32).all isHexLower ∧ (r1.drop 32).head? = some '/' then
      let r3 := (r1.drop 32).tail
      let seg := r3.takeWhile fun c => c != '/'
      if seg ≠ [] ∧ URL_TAIL.isPrefixOf (r3.dropWhile fun c => c != '/') then some seg
      else none
    else none
  else none

/-- Leftmost-match search of `URL_REGEX` over the subject string. -/
def scanUrl : Str → Option Str
  | [] => none
  | c :: rest =>
    match matchUrlAt (c :: rest) with
    | some seg => some seg
    | none => scanUrl rest

/-- `getZoneNameFromUrl`: capture group 1 of the first `URL_REGEX` match of
the page address, `none` when the address does not match. -/
def getZoneNameFromUrl (url : Str) : Option Str := scanUrl url

theorem scanUrl_none_of_no_host (url : Str) (h : containsSub URL_HOST url = false) :
    scanUrl url = none := by
  induction url with
  | nil => rfl
  | cons c rest ih =>
    simp only [containsSub, Bool.or_eq_false_iff] at h
    simp [scanUrl, matchUrlAt, h.1, ih h.2]

/-- Per-cell results of the nested queries `extractRecordData` performs:
`spanTitleText` is the text of the first `span[title]` descendant,
`divTitle` the `title` attribute and text of the first `div[title]`,
`imgSrc` the address of the first `img`, and `divText` the text of the
first `div`; `none` records an absent element. -/
structure CellModel where
  spanTitleText : Option Str
  divTitle : Option (Str × Str)
  imgSrc : Option Str
  divText : Option Str
deriving DecidableEq

def cellDefault : CellModel := ⟨none, none, none, none⟩

/-- JavaScript `String.prototype.trim` over the modelled whitespace set. -/
def trimWs (s : Str) : Str :=
  ((s.dropWhile jsWhitespace).reverse.dropWhile jsWhitespace).reverse

/-- JavaScript `a || b` on strings: the empty string is falsy. -/
def jsOrStr (a b : Str) : Str := if a = [] then b else a

/-- Base64 fragment of the orange-cloud image tested by the proxy heuristic. -/
def PROXY_FRAGMENT : Str := "ZmY4YzAw".data

structure DnsRecordData where
  recordId : Str
  zoneName : Str
  type : Str
  name : Str
  content : Str
  ttl : Str
  proxied : Bool
deriving DecidableEq

/-- `extractRecordData`: fail when the page address has no zone name, fail
when the row has fewer than 7 cells, otherwise read the positional cells
(2: type, 3: name, 4: content, 5: proxy image, 6: TTL). -/
def extractRecordData (url : Str) (cells : List CellModel) (recordId : Str) :
    Option DnsRecordData :=
  match getZoneNameFromUrl url with
  | none => none
  | some zoneName =>
    if cells.length < 7 then none
    else
      let typeCell := cells.getD 2 cellDefault
      let typeText := (typeCell.spanTitleText.map trimWs).getD []
      let nameCell := cells.getD 3 cellDefault
      let name :=
        match nameCell.divTitle with
        | some (attr, txt) => jsOrStr attr (trimWs txt)
        | none => []
      let contentCell := cells.getD 4 cellDefault
      let content :=
        match contentCell.divTitle with
        | some (attr, txt) => jsOrStr attr (trimWs txt)
        | none => []
      let proxyCell := cells.getD 5 cellDefault
      let proxied :=
        match proxyCell.imgSrc with
        | some src => containsSub PROXY_FRAGMENT src
        | none => false
      let ttlCell := cells.getD 6 cellDefault
      let ttlText :=
        match ttlCell.divText with
        | some t => jsOrStr (trimWs t) ("Auto".data)
        | none => "Auto".data
      some ⟨recordId, zoneName, typeText, name, content, ttlText, proxied⟩

/-- C7: `extractRecordData` returns `none` (and, being a total function,
cannot throw) whenever the page address yields no zone name — in particular
whenever the address does not even contain the host literal of the URL
pattern — and whenever the row has fewer than 7 cells. -/
theorem claim_C7 :
    ∀ (url : Str) (cells : List CellModel) (recordId : Str),
      (getZoneNameFromUrl url = none → extractRecordData url cells recordId = none)
      ∧ (containsSub URL_HOST url = false → extractRecordData url cells recordId = none)
      ∧ (cells.length < 7 → extractRecordData url cells recordId = none) := by
  intro url cells rid
  refine ⟨?_, ?_, ?_⟩
  · intro h
    simp [extractRecordData, h]
  · intro h
    simp [extractRecordData, getZoneNameFromUrl, scanUrl_none_of_no_host url h]
  · intro h
    cases hz : getZoneNameFromUrl url with
    | none => simp [extractRecordData, hz]
    | some z => simp [extractRecordData, hz, h]

/-- Witness for C7 at a hostless address and at a 3-cell row. -/
theorem claim_C7_witness :
    extractRecordData ("x".data) [] ("r".data) = none
    ∧ extractRecordData ("nohost".data) [] ("r".data) = none
    ∧ extractRecordData ("x".data) (List.replicate 3 cellDefault) ("r".data) = none :=
  ⟨(claim_C7 ("x".data) [] ("r".data)).1 (by decide),
   (claim_C7 ("nohost".data) [] ("r".data)).2.1 (by decide),
   (claim_C7 ("x".data) (List.replicate 3 cellDefault) ("r".data)).2.2 (by decide)⟩

/-- Cell inserted by `createIdCell`: a `td` containing a container `div`
whose text is the identifier and a `span` carrying a `title` attribute and
the identifier as text; it holds no `div[title]` and no `img`. -/
def idCellModel (d : DnsRecordData) : CellModel :=
  { spanTitleText := some d.recordId, divTitle := none, imgSrc := none,
    divText := some d.recordId }

/-- Table row: the `data-cf-id-processed` marker, the edit button with its
`aria-controls` attribute (outer `none` = no button, inner `none` = button
without the attribute), and the row's `td` cells in order. -/
structure Row where
  processed : Bool
  editBtn : Option (Option Str)
  cells : List CellModel
deriving DecidableEq

/-- `processRow`: skip marked rows, extract the identifier and the record
data, insert the identifier cell after the fourth cell (index 3), and set
the marker only after that successful augmentation. -/
def processRow (url : Str) (row : Row) : Row :=
  if row.processed then row
  else
    match row.editBtn with
    | none => row
    | some aria =>
      match extractRecordId aria with
      | none => row
      | some rid =>
        match extractRecordData url row.cells rid with
        | none => row
        | some data =>
          if row.cells.length < 5 then row
          else
            { processed := true, editBtn := row.editBtn,
              cells := row.cells.take 4 ++ idCellModel data :: row.cells.drop 4 }

theorem processRow_spec (url : Str) (row : Row) :
    processRow url row = row
    ∨ (row.processed = false ∧ 5 ≤ row.cells.length
        ∧ ∃ d, processRow url row =
            { processed := true, editBtn := row.editBtn,
              cells := row.cells.take 4 ++ idCellModel d :: row.cells.drop 4 }) := by
  cases hb : row.processed with
  | true => left; simp [processRow, hb]
  | false =>
    cases hbtn : row.editBtn with
    | none => left; simp [processRow, hb, hbtn]
    | some aria =>
      cases hrid : extractRecordId aria with
      | none => left; simp [processRow, hb, hbtn, hrid]
      | some rid =>
        cases hdata : extractRecordData url row.cells rid with
        | none => left; simp [processRow, hb, hbtn, hrid, hdata]
        | some d =>
          by_cases hlen : row.cells.length < 5
          · left; simp [processRow, hb, hbtn, hrid, hdata, hlen]
          · right
            refine ⟨rfl, by omega, d, ?_⟩
            simp [processRow, hb, hbtn, hrid, hdata, hlen]

/-- C8: processing a row twice is the same as processing it once; a row
whose marker is set is skipped unchanged; and an unmarked row is either left
completely unchanged (extraction failed, so it stays unmarked and eligible
for retry) or is marked and gains exactly one cell. -/
theorem claim_C8 :
    ∀ (url : Str) (row : Row),
      processRow url (processRow url row) = processRow url row
      ∧ (row.processed = true → processRow url row = row)
      ∧ (row.processed = false →
          processRow url row = row
          ∨ ((processRow url row).processed = true
              ∧ (processRow url row).cells.length = row.cells.length + 1)) := by
  intro url row
  rcases processRow_spec url row with h | ⟨hp, hlen, d, h⟩
  · rw [h, h]
    exact ⟨rfl, fun _ => rfl, fun _ => Or.inl rfl⟩
  · refine ⟨?_, ?_, ?_⟩
    · rw [h]
      simp [processRow]
    · intro hcontra
      rw [hp] at hcontra
      exact absurd hcontra (by decide)
    · intro _
      right
      rw [h]
      refine ⟨rfl, ?_⟩
      simp only [List.length_append, List.length_cons, List.length_take, List.length_drop]
      omega

/-- Witness for C8 at a marked empty row and at an unmarked empty row. -/
theorem claim_C8_witness :
    processRow ("x".data) { processed := true, editBtn := none, cells := [] }
        = { processed := true, editBtn := none, cells := [] }
    ∧ (processRow ("x".data) { processed := false, editBtn := none, cells := [] }
          = { processed := false, editBtn := none, cells := [] }
        ∨ ((processRow ("x".data) { processed := false, editBtn := none, cells := [] }).processed
              = true
            ∧ (processRow ("x".data)
                { processed := false, editBtn := none, cells := [] }).cells.length
              = ({ processed := false, editBtn := none, cells := [] } : Row).cells.length + 1)) :=
  ⟨(claim_C8 ("x".data) { processed := true, editBtn := none, cells := [] }).2.1 rfl,
   (claim_C8 ("x".data) { processed := false, editBtn := none, cells := [] }).2.2 rfl⟩

/-- C10: when `processRow` changes an unmarked row at all, the whole change
is: the marker becomes set, the edit button is untouched, and the cell list
becomes the original first four cells, then the one inserted identifier
cell, then the remaining original cells — so every pre-existing cell and its
contents are preserved. -/
theorem claim_C10 :
    ∀ (url : Str) (row : Row), row.processed = false → processRow url row ≠ row →
      ∃ d, (processRow url row).processed = true
        ∧ (processRow url row).editBtn = row.editBtn
        ∧ (processRow url row).cells = row.cells.take 4 ++ idCellModel d :: row.cells.drop 4 := by
  intro url row hp hne
  rcases processRow_spec url row with h | ⟨-, -, d, h⟩
  · exact absurd h hne
  · exact ⟨d, by rw [h], by rw [h], by rw [h]⟩

/-- Page address of the witness row: a well-formed dashboard address. -/
def urlC10 : Str :=
  "https://dash.cloudflare.com/0123456789abcdef0123456789abcdef/example.com/dns/records".data

/-- Unmarked witness row with a valid edit button and seven empty cells. -/
def rowC10 : Row :=
  { processed := false,
    editBtn := some (some ("0123456789abcdef0123456789abcdef".data ++ ID_SUFFIX)),
    cells := List.replicate 7 cellDefault }

/-- Witness for C10 at a fully populated row that is successfully augmented. -/
theorem claim_C10_witness :
    ∃ d, (processRow urlC10 rowC10).processed = true
      ∧ (processRow urlC10 rowC10).editBtn = rowC10.editBtn
      ∧ (processRow urlC10 rowC10).cells
          = rowC10.cells.take 4 ++ idCellModel d :: rowC10.cells.drop 4 :=
  claim_C10 urlC10 rowC10 (by decide) (by decide)

/-- Header cell (`th`): its `id`, class attribute and visible label. -/
structure ThModel where
  id : Str
  className : Str
  label : Str
deriving DecidableEq

/-- Table head: the `data-cf-header-processed` marker and the cells of the
first header row (`none` = no `tr` inside the `thead`). -/
structure TheadState where
  processed : Bool
  headerRow : Option (List ThModel)
deriving DecidableEq

/-- Table: its `thead`, if any. -/
structure TableModel where
  thead : Option TheadState
deriving DecidableEq

def thNameId : Str := "name".data

def thResourceId : Str := "resource-id".data

/-- Visible label of the inserted header cell. -/
def RESOURCE_ID_LABEL : Str := "Resource ID".data

def thDefault : ThModel := ⟨[], [], []⟩

/-- `addHeaderColumn`: skip when there is no `thead` or the head marker is
set; find the `th#name` cell; insert a new `th#resource-id` labelled
"Resource ID" (with the name header's class) right after it; set the head
marker. -/
def addHeaderColumn (t : TableModel) : TableModel :=
  match t.thead with
  | none => t
  | some th =>
    if th.processed then t
    else
      match th.headerRow with
      | none => t
      | some ths =>
        match ths.findIdx? (fun h => h.id == thNameId) with
        | none => t
        | some i =>
          let nameHeader := ths.getD i thDefault
          let newHeader : ThModel :=
            { id := thResourceId, className := nameHeader.className,
              label := RESOURCE_ID_LABEL }
          let newHead : TheadState :=
            { processed := true,
              headerRow := some (ths.take (i+1) ++ newHeader :: ths.drop (i+1)) }
          { thead := some newHead }

/-- Count of "Resource ID" header cells in the table. -/
def countRID (t : TableModel) : Nat :=
  match t.thead with
  | some th =>
    match th.headerRow with
    | some ths => (ths.filter fun h => h.label == RESOURCE_ID_LABEL).length
    | none => 0
  | none => 0

theorem filter_insert_middle (p : ThModel → Bool) (l1 l2 : List ThModel) (x : ThModel)
    (hx : p x = true) :
    ((l1 ++ x :: l2).filter p).length = ((l1 ++ l2).filter p).length + 1 := by
  simp [List.filter_append, List.filter_cons, hx]
  omega

theorem addHeaderColumn_spec (t : TableModel) :
    addHeaderColumn t = t
    ∨ (addHeaderColumn (addHeaderColumn t) = addHeaderColumn t
        ∧ countRID (addHeaderColumn t) = countRID t + 1) := by
  cases ht : t.thead with
  | none => left; simp [addHeaderColumn, ht]
  | some th =>
    cases hb : th.processed with
    | true => left; simp [addHeaderColumn, ht, hb]
    | false =>
      cases hhr : th.headerRow with
      | none => left; simp [addHeaderColumn, ht, hb, hhr]
      | some ths =>
        cases hidx : ths.findIdx? (fun h => h.id == thNameId) with
        | none => left; simp [addHeaderColumn, ht, hb, hhr, hidx]
        | some i =>
          right
          constructor
          · simp [addHeaderColumn, ht, hb, hhr, hidx]
          · have hstep : addHeaderColumn t =
                { thead := some { processed := true, headerRow := some (ths.take (i+1)
                    ++ ({ id := thResourceId, className := (ths.getD i thDefault).className,
                          label := RESOURCE_ID_LABEL } : ThModel) :: ths.drop (i+1)) } } := by
              simp [addHeaderColumn, ht, hb, hhr, hidx]
            rw [hstep]
            simp only [countRID, ht, hhr]
            rw [filter_insert_middle _ _ _ _ (by simp), List.take_append_drop]

theorem addHeaderColumn_idem (t : TableModel) :
    addHeaderColumn (addHeaderColumn t) = addHeaderColumn t := by
  rcases addHeaderColumn_spec t with h | ⟨h, -⟩
  · rw [h, h]
  · exact h

theorem countRID_addHeaderColumn_le (t : TableModel) :
    countRID (addHeaderColumn (addHeaderColumn t)) ≤ countRID t + 1 := by
  rw [addHeaderColumn_idem]
  rcases addHeaderColumn_spec t with h | ⟨-, hc⟩
  · rw [h]; omega
  · rw [hc]

/-- Document: its first `table`, the DNS rows, and the page address. -/
structure DocumentModel where
  table : Option TableModel
  rows : List Row
  url : Str

/-- `processTable`: augment the header of the document's table (when one
exists) and process every DNS row. -/
def processTable (doc : DocumentModel) : DocumentModel :=
  { doc with table := doc.table.map addHeaderColumn,
             rows := doc.rows.map (processRow doc.url) }

/-- Count of "Resource ID" header cells in the document. -/
def countRIDDoc (doc : DocumentModel) : Nat :=
  match doc.table with
  | some t => countRID t
  | none => 0

/-- C9: a second `addHeaderColumn` never changes the table again; a run that
does change the table adds exactly one "Resource ID" header cell; hence two
sequential full-table scans (`processTable`) leave at most one more
"Resource ID" header cell than the document started with, and the second
scan adds none. -/
theorem claim_C9 :
    (∀ t : TableModel,
      addHeaderColumn (addHeaderColumn t) = addHeaderColumn t
      ∧ (addHeaderColumn t = t ∨ countRID (addHeaderColumn t) = countRID t + 1)
      ∧ countRID (addHeaderColumn (addHeaderColumn t)) ≤ countRID t + 1)
    ∧ (∀ doc : DocumentModel,
      countRIDDoc (processTable (processTable doc)) = countRIDDoc (processTable doc)
      ∧ countRIDDoc (processTable (processTable doc)) ≤ countRIDDoc doc + 1) := by
  constructor
  · intro t
    refine ⟨addHeaderColumn_idem t, ?_, countRID_addHeaderColumn_le t⟩
    rcases addHeaderColumn_spec t with h | ⟨-, hc⟩
    · exact Or.inl h
    · exact Or.inr hc
  · intro doc
    cases htab : doc.table with
    | none => simp [processTable, countRIDDoc, htab]
    | some t =>
      constructor
      · simp [processTable, countRIDDoc, htab, addHeaderColumn_idem]
      · simp only [processTable, countRIDDoc, htab, Option.map_some]
        simpa using countRID_addHeaderColumn_le t
